import Mathlib

/-!
Verification development for the mcp-db-migrations engine
(src/mcp-db-migrations: api.py, engines/oracle.py, engines/postgres.py).

The Python source is shallowly embedded below.  A source table is modelled
as the fixed ordered sequence of its rows (the order induced by the stable,
deterministic ordering key of the paging query `ORDER BY 1`; the claims that
need it assume a stable unique key and no concurrent writes, which is
exactly what makes this sequence well defined and constant across fetches).
Rows are an abstract type.  Machine integers of the source are Nat (no
overflow is reachable in the modelled arithmetic).  Fallible Python code is
embedded with Except.
-/

namespace DbMigrations

variable {ρ : Type}

/-- Model of `OracleConnector.fetch_data` (engines/oracle.py, lines 114-140):
the ROWNUM-paginated query returns the rows of the stable ordering whose
1-based rank `rnum` satisfies `offset < rnum ≤ offset + batch_size`, i.e. the
slice `(rows.drop offset).take batch_size` of the ordered row sequence. -/
def fetch_data (rows : List ρ) (batch_size offset : Nat) : List ρ :=
  (rows.drop offset).take batch_size

/-- Observable outcome of the per-table data-migration loop of
`run_oracle_to_postgres_migration` (api.py, lines 215-256). -/
structure LoopResult (ρ : Type) where
  /-- the non-empty pages fetched and handed to the sink, in order -/
  pages : List (List ρ)
  /-- how many `fetch_data` calls were issued (the final empty-page fetch,
  when it happens, counts) -/
  fetchCalls : Nat
  /-- the `(rows_processed, total_rows)` progress snapshots published into
  the job record after each batch (api.py, lines 244-249); the floating
  point `percentage` field is deliberately not modelled here -/
  reports : List (Nat × Nat)
  /-- per executed batch: (offset before the fetch, length of the fetched
  page, value assigned to `offset` afterwards by `offset += batch_size`) -/
  offsets : List (Nat × Nat × Nat)
  /-- final value of `rows_migrated` -/
  rowsMigrated : Nat

/-- One-to-one rendering of the `while offset < row_count` loop of
api.py lines 223-256, with `row_count = rows.length` (the up-front
`SELECT COUNT(*)` under no concurrent writes).  `rm` is the running
`rows_migrated`; `fuel` is a structural-recursion bound, irrelevant as soon
as it exceeds the number of iterations. -/
def runBatches (rows : List ρ) (b : Nat) : Nat → Nat → Nat → LoopResult ρ
  | _offset, rm, 0 => ⟨[], 0, [], [], rm⟩
  | offset, rm, fuel + 1 =>
    if offset < rows.length then
      let page := fetch_data rows b offset
      if page.isEmpty then ⟨[], 1, [], [], rm⟩
      else
        let rm2 := rm + page.length
        let rest := runBatches rows b (offset + b) rm2 fuel
        ⟨page :: rest.pages, rest.fetchCalls + 1,
         (rm2, rows.length) :: rest.reports,
         (offset, page.length, offset + b) :: rest.offsets,
         rest.rowsMigrated⟩
    else ⟨[], 0, [], [], rm⟩

/-- The data-migration step for one table: the loop run from
`offset = 0`, `rows_migrated = 0`, with enough fuel for every iteration. -/
def transferTable (rows : List ρ) (b : Nat) : LoopResult ρ :=
  runBatches rows b 0 0 (rows.length + 1)

/-- Modelled from the spec (section 4.3): the claim that every iteration
advances the offset by the number of rows actually contained in the fetched
page.  Compared against the `offsets` trace of the code. -/
def advancesByFetchedLen (l : List (Nat × Nat × Nat)) : Bool :=
  l.all (fun e => e.2.2 == e.1 + e.2.1)

/-- Companion predicate for the code behaviour: every iteration advances
the offset by the configured batch size. -/
def advancesByBatchSize (b : Nat) (l : List (Nat × Nat × Nat)) : Bool :=
  l.all (fun e => e.2.2 == e.1 + b)

/-- Outcome of one `PostgresConnector.insert_data` call
(engines/postgres.py, lines 120-142). -/
structure InsertOutcome where
  /-- value returned, or the propagated exception message -/
  result : Except String Nat
  /-- whether an INSERT statement was executed -/
  executedSql : Bool
  /-- whether `connection.commit()` ran -/
  committed : Bool
  /-- whether `connection.rollback()` ran -/
  rolledBack : Bool

/-- Model of `PostgresConnector.insert_data`: empty input returns 0 before
any SQL is built or executed; otherwise the batch is executed as one unit,
committed on success (returning `len(data)`), rolled back and re-raised on
failure.  `executeOk` abstracts whether the driver call succeeds. -/
def insert_data (executeOk : Bool) (data : List ρ) : InsertOutcome :=
  if data.isEmpty then ⟨.ok 0, false, false, false⟩
  else if executeOk then ⟨.ok data.length, true, true, false⟩
  else ⟨.error "Failed to insert data", true, false, true⟩

/-- Model of Python `str.lower()` on the ASCII identifiers the code handles:
lower-case every character.  (Stated on the character list underlying the
string so that it evaluates by kernel reduction.) -/
def lowerString (s : String) : String :=
  ⟨s.data.map Char.toLower⟩

/-- A source column as `convert_oracle_to_postgres_schema` and the data
transformer see it: a Python dict.  For the keys that the code probes with
`in` before reading (`data_precision`, `data_scale`, `data_length`), `none`
models an absent key and `some none` a key present with value Python None. -/
structure OracleColumn where
  column_name : String
  data_type : String
  nullable : String := "Y"
  default_value : Option String := none
  data_precision : Option (Option Nat) := none
  data_scale : Option (Option Nat) := none
  data_length : Option (Option Nat) := none
deriving DecidableEq

/-- A translated column as built by api.py lines 329-334. -/
structure PgColumn where
  column_name : String
  data_type : String
  nullable : Bool
  column_default : Option String
deriving DecidableEq

/-- The dict returned by `OracleConnector.get_schema` as consumed by the
converter (the `procedures` and `original_db_type` entries are not read by
any code under verification). -/
structure OracleSchema where
  table_name : String
  columns : List OracleColumn
  primary_keys : List String

/-- The dict built by `convert_oracle_to_postgres_schema`. -/
structure PgSchema where
  table_name : String
  columns : List PgColumn
  primary_keys : List String
  original_db_type : String

/-- The `type_mapping` dict of api.py lines 290-303 together with the
`.get(oracle_type, "VARCHAR")` default of line 316. -/
def typeMappingGet (t : String) : String :=
  if t = "NUMBER" then "NUMERIC"
  else if t = "VARCHAR2" then "VARCHAR"
  else if t = "CHAR" then "CHAR"
  else if t = "DATE" then "TIMESTAMP"
  else if t = "TIMESTAMP" then "TIMESTAMP"
  else if t = "CLOB" then "TEXT"
  else if t = "BLOB" then "BYTEA"
  else if t = "FLOAT" then "DOUBLE PRECISION"
  else if t = "RAW" then "BYTEA"
  else if t = "LONG RAW" then "BYTEA"
  else if t = "NVARCHAR2" then "VARCHAR"
  else if t = "NCHAR" then "CHAR"
  else "VARCHAR"

/-- The per-column target type computation of api.py lines 315-327.  The
NUMBER branch fires only when both the `data_precision` and the
`data_scale` keys are present in the column dict (`"data_precision" in col
and "data_scale" in col`); inside it, a non-null precision with a null
scale gives a precision-only parameter, and a null precision leaves the
mapped base type.  The VARCHAR2 branch tests only key presence, rendering
the raw value (Python prints None into the f-string when the value is
null). -/
def convertColumnType (col : OracleColumn) : String :=
  let pg := typeMappingGet col.data_type
  if col.data_type = "NUMBER" ∧ col.data_precision.isSome ∧ col.data_scale.isSome then
    match col.data_precision, col.data_scale with
    | some (some p), some (some s) =>
        "NUMERIC(" ++ toString p ++ "," ++ toString s ++ ")"
    | some (some p), _ => "NUMERIC(" ++ toString p ++ ")"
    | _, _ => pg
  else if col.data_type = "VARCHAR2" ∧ col.data_length.isSome then
    "VARCHAR(" ++ (match col.data_length with
                   | some (some n) => toString n
                   | _ => "None") ++ ")"
  else pg

/-- Model of `convert_oracle_to_postgres_schema` (api.py lines 287-336):
lower-cases the table name, every column name and every primary-key name,
converts each column type, and maps `nullable == "Y"` to a Bool.  The
function is total: no check relates primary keys to column names and no
error is ever raised. -/
def convert_oracle_to_postgres_schema (s : OracleSchema) : PgSchema :=
  { table_name := lowerString s.table_name
    columns := s.columns.map (fun col =>
      { column_name := lowerString col.column_name
        data_type := convertColumnType col
        nullable := col.nullable == "Y"
        column_default := col.default_value })
    primary_keys := s.primary_keys.map lowerString
    original_db_type := "POSTGRESQL" }

/-- Concrete NUMBER column whose dict carries a `data_precision` key with
value 10 but no `data_scale` key at all. -/
def c6NumberCol : OracleColumn :=
  { column_name := "AMOUNT", data_type := "NUMBER",
    data_precision := some (some 10) }

/-- Concrete NUMBER column with precision 10 and scale 2 both present. -/
def c6BothCol : OracleColumn :=
  { column_name := "PRICE", data_type := "NUMBER",
    data_precision := some (some 10), data_scale := some (some 2) }

/-- Concrete schema whose only primary key names no column. -/
def c7Schema : OracleSchema :=
  { table_name := "PATIENTS",
    columns := [{ column_name := "ID", data_type := "NUMBER" }],
    primary_keys := ["LEGACY_KEY"] }

/-- Content of a cx_Oracle large-object handle: what its `read()` call
returns when drained (character data for a CLOB, bytes for a BLOB). -/
inductive LobContent where
  | txt (s : String)
  | bin (b : List Nat)
deriving DecidableEq

/-- A Python value as `transform_oracle_to_postgres_data` sees it.  The
code only ever inspects None-ness and the presence of a `read` attribute
(the duck-typed large-object check), so scalars are collapsed into their
string rendering without loss for any inspected path. -/
inductive Val where
  | null
  | str (s : String)
  | bytes (b : List Nat)
  | lob (c : LobContent)
deriving DecidableEq

/-- Draining a handle: `value.read()`. -/
def readLob : LobContent → Val
  | .txt s => .str s
  | .bin b => .bytes b

/-- Python `str()` of the values that can reach the CLOB branch. -/
def pyStr : Val → String
  | .null => "None"
  | .str s => s
  | .bytes b => "bytes " ++ toString b
  | .lob (.txt s) => "LOB " ++ s
  | .lob (.bin b) => "LOB " ++ toString b

/-- Python `bytes()` as used in the BLOB branch: defined on values that
are already byte strings, a TypeError otherwise. -/
def pyBytes : Val → Except String (List Nat)
  | .bytes b => .ok b
  | _ => .error "TypeError: cannot convert value to bytes"

/-- The per-value conversion of api.py lines 360-373: None is assigned
through unchanged; in a CLOB column the value is drained with `read()` when
it is a handle and stringified otherwise; in a BLOB column likewise with
`bytes()`; any other column type passes the value through untouched. -/
def convertVal (t : String) (v : Val) : Except String Val :=
  if v = Val.null then .ok v
  else if t = "CLOB" then
    match v with
    | .lob c => .ok (.str (pyStr (readLob c)))
    | w => .ok (.str (pyStr w))
  else if t = "BLOB" then
    match v with
    | .lob c => (pyBytes (readLob c)).map Val.bytes
    | w => (pyBytes w).map Val.bytes
  else .ok v

/-- Dict lookup `row[name]` guarded by `name in row`: the row dict is an
association list in column order with one key per column. -/
def lookupRow (row : List (String × Val)) (k : String) : Option Val :=
  (row.find? (fun kv => kv.1 == k)).map (fun kv => kv.2)

/-- The `next(c["data_type"] for c in oracle_schema["columns"] if
c["column_name"] == name)` lookup of api.py lines 363-366: data type of the
first column with exactly this name, StopIteration when there is none. -/
def oracleTypeFor (oCols : List OracleColumn) (nm : String) : Except String String :=
  match oCols.find? (fun c2 => c2.column_name == nm) with
  | some c2 => .ok c2.data_type
  | none => .error "StopIteration"

/-- One iteration of the `for pg_col in pg_schema["columns"]` loop of
api.py lines 349-375: the key/value pairs this target column adds to
`pg_row` (empty when the column is omitted).  The source column is found by
case-normalized name match; Python truthiness makes an empty matched name
fail the `if oracle_col_name` test. -/
def colContribution (oCols : List OracleColumn) (row : List (String × Val))
    (pgCol : PgColumn) : Except String (List (String × Val)) :=
  match oCols.find? (fun c => lowerString c.column_name == pgCol.column_name) with
  | none => .ok []
  | some c =>
    if c.column_name = "" then .ok []
    else
      match lookupRow row c.column_name with
      | none => .ok []
      | some v =>
        if v = Val.null then .ok [(pgCol.column_name, Val.null)]
        else do
          let t ← oracleTypeFor oCols c.column_name
          let v2 ← convertVal t v
          .ok [(pgCol.column_name, v2)]

/-- Model of the per-row body of `transform_oracle_to_postgres_data`
(api.py lines 346-377): `pg_row` starts empty and each target column
appends its contribution.  (Python dict assignment would overwrite a
duplicate target name; target schemas produced by the converter from
distinct-named sources have distinct names, for which the association list
is equivalent.) -/
def transformRow (oCols : List OracleColumn) (pCols : List PgColumn)
    (row : List (String × Val)) : Except String (List (String × Val)) :=
  pCols.foldlM
    (fun acc pgCol => (colContribution oCols row pgCol).map (fun kv => acc ++ kv)) []

/-- Model of `transform_oracle_to_postgres_data` itself: every fetched row
is transformed in order; the first raised conversion error propagates. -/
def transform_oracle_to_postgres_data (data : List (List (String × Val)))
    (oSchema : OracleSchema) (pSchema : PgSchema) :
    Except String (List (List (String × Val))) :=
  data.mapM (fun row => transformRow oSchema.columns pSchema.columns row)

/-- Concrete source columns for the transformer witness. -/
def c9OracleCols : List OracleColumn :=
  [ { column_name := "DOC", data_type := "CLOB" },
    { column_name := "IMG", data_type := "BLOB" },
    { column_name := "NOTE", data_type := "VARCHAR2" } ]

/-- Concrete target columns: three matched ones and one with no source. -/
def c9PgCols : List PgColumn :=
  [ { column_name := "doc", data_type := "TEXT", nullable := true, column_default := none },
    { column_name := "img", data_type := "BYTEA", nullable := true, column_default := none },
    { column_name := "note", data_type := "VARCHAR", nullable := true, column_default := none },
    { column_name := "extra", data_type := "VARCHAR", nullable := true, column_default := none } ]

/-- Concrete fetched row: a CLOB handle, a BLOB handle and a null. -/
def c9Row : List (String × Val) :=
  [("DOC", Val.lob (.txt "hello")), ("IMG", Val.lob (.bin [7, 8])), ("NOTE", Val.null)]

/-- The transformed row the code produces for `c9Row`. -/
def c9Out : List (String × Val) :=
  [("doc", Val.str "hello"), ("img", Val.bytes [7, 8]), ("note", Val.null)]

/-- One effectful step of `run_oracle_to_postgres_migration`, in program
order.  Pure Python between these steps (schema conversion, stats updates,
log appends) is not represented; an exception raised inside the pure
transformer behaves exactly like a fault at the adjacent insert step. -/
inductive Step where
  /-- a `migrations[...]["status"] = s` write -/
  | setStatus (s : String)
  /-- a `migrations[...]["details"]["current_phase"] = p` write -/
  | setPhase (p : String)
  /-- `from engines... import` of the two connector modules -/
  | importMods
  /-- `OracleConnector(...)` construction (stores parameters, cannot raise) -/
  | mkOracle
  /-- `oracle.connect()` -/
  | connOracle
  /-- `PostgresConnector(...)` construction -/
  | mkPostgres
  /-- `postgres.connect()` -/
  | connPostgres
  /-- a fallible call on the Oracle side: `get_tables`, `get_schema`,
  the row-count query, or `fetch_data` -/
  | oracleCall
  /-- a fallible call on the Postgres side: `create_table_from_schema` or
  `insert_data` -/
  | postgresCall
deriving DecidableEq

/-- Whether a step can raise: connector constructions and job-record
writes cannot, all connector calls and the import can. -/
def Step.fallible : Step → Bool
  | .setStatus _ => false
  | .setPhase _ => false
  | .mkOracle => false
  | .mkPostgres => false
  | _ => true

/-- Job record and connector state visible to the claims.  `phases` is the
trace of every value written to `current_phase`, most recent last.  Each
connector is `none` while not yet constructed (not in `locals()`) and
`some connected` afterwards. -/
structure RunState where
  status : String
  phases : List String
  error : Option String
  oracle : Option Bool
  pg : Option Bool
deriving DecidableEq

/-- Effect of one step on the state. -/
def Step.apply : Step → RunState → RunState
  | .setStatus s, st => { st with status := s }
  | .setPhase p, st => { st with phases := st.phases ++ [p] }
  | .mkOracle, st => { st with oracle := some false }
  | .connOracle, st => { st with oracle := some true }
  | .mkPostgres, st => { st with pg := some false }
  | .connPostgres, st => { st with pg := some true }
  | .importMods, st => st
  | .oracleCall, st => st
  | .postgresCall, st => st

/-- Run the body of the `try` block.  `fault = some (k, m)` makes the k-th
fallible step (0-based) raise an exception with message `m` instead of
taking effect; `none` runs fault-free.  The first component is the raised
message, if any, with the state at that moment — the remaining steps are
skipped, which is exactly Python exception propagation. -/
def runSteps : List Step → Option (Nat × String) → RunState → Option String × RunState
  | [], _, st => (none, st)
  | s :: rest, fault, st =>
    if s.fallible then
      match fault with
      | some (0, m) => (some m, st)
      | some (k + 1, m) => runSteps rest (some (k, m)) (s.apply st)
      | none => runSteps rest none (s.apply st)
    else runSteps rest fault (s.apply st)

/-- The effectful-call sequence of the per-table batch loop (api.py lines
223-256): each iteration issues a fetch; a non-empty page is followed by an
insert.  The rows matter only through the row count `n`: inside the loop
`offset < n` holds, so the fetched page is empty exactly when
`batch_size = 0`. -/
def batchSteps (n b : Nat) : Nat → Nat → List Step
  | _offset, 0 => []
  | offset, fuel + 1 =>
    if offset < n then
      if b = 0 then [Step.oracleCall]
      else Step.oracleCall :: Step.postgresCall :: batchSteps n b (offset + b) fuel
    else []

/-- Steps for one table (api.py lines 187-256): schema read, phase write
`type_conversion`, table creation, and — unless schema-only — the phase
write `data_migration`, the row-count query and the batch loop. -/
def tableSteps (b : Nat) (onlySchema : Bool) (n : Nat) : List Step :=
  [Step.oracleCall, Step.setPhase "type_conversion", Step.postgresCall]
    ++ (if onlySchema then []
        else [Step.setPhase "data_migration", Step.oracleCall] ++ batchSteps n b 0 (n + 1))

/-- The whole `try` body (api.py lines 139-271) for a job: imports,
connector construction and connection, a `get_tables` call when no
include-list was passed, the per-table work (each table abstracted to its
row count, the only attribute its steps depend on), then the
`plsql_conversion` and `validation` phase writes, the `completed` status
write and the `completed` phase write. -/
def jobSteps (b : Nat) (onlySchema tablesGiven : Bool) (tables : List Nat) : List Step :=
  [Step.importMods, Step.mkOracle, Step.connOracle, Step.mkPostgres, Step.connPostgres]
    ++ (if tablesGiven then [] else [Step.oracleCall])
    ++ (tables.map (tableSteps b onlySchema)).flatten
    ++ [Step.setPhase "plsql_conversion", Step.setPhase "validation",
        Step.setStatus "completed", Step.setPhase "completed"]

/-- State on entering the `try` block: api.py lines 134-137 have already
set status `running` and phase `schema_analysis`; no connector exists. -/
def initState : RunState :=
  { status := "running", phases := ["schema_analysis"], error := none,
    oracle := none, pg := none }

/-- The `finally` block (api.py lines 278-283): each connector that is in
`locals()` is disconnected (`disconnect` is a no-op when `connect` never
succeeded, and sets the connection to None otherwise). -/
def cleanup (st : RunState) : RunState :=
  { st with oracle := st.oracle.map (fun _ => false),
            pg := st.pg.map (fun _ => false) }

/-- Model of `run_oracle_to_postgres_migration`: run the try body; on an
exception set status `failed`, record the message as the job error and
write phase `failed` (api.py lines 273-277); clean up unconditionally. -/
def runJob (b : Nat) (onlySchema tablesGiven : Bool) (tables : List Nat)
    (fault : Option (Nat × String)) : RunState :=
  match runSteps (jobSteps b onlySchema tablesGiven tables) fault initState with
  | (none, st) => cleanup st
  | (some m, st) =>
      cleanup { st with status := "failed", error := some m,
                        phases := st.phases ++ ["failed"] }

/-- Phase writes contained in a step list. -/
def phasesOf (l : List Step) : List String :=
  l.filterMap (fun s => match s with | Step.setPhase p => some p | _ => none)

/-- Rank of a phase in the order the claim lists.  The claim names
`procedure_conversion`; the code writes `plsql_conversion`, which
therefore has no rank here. -/
def claimRank : String → Option Nat
  | "schema_analysis" => some 0
  | "type_conversion" => some 1
  | "data_migration" => some 2
  | "procedure_conversion" => some 3
  | "validation" => some 4
  | "completed" => some 5
  | _ => none

/-- Rank of a phase in the order the code actually writes. -/
def phaseRank : String → Option Nat
  | "schema_analysis" => some 0
  | "type_conversion" => some 1
  | "data_migration" => some 2
  | "plsql_conversion" => some 3
  | "validation" => some 4
  | "completed" => some 5
  | _ => none

/-- Modelled from the spec claim (section 3): a pair of consecutively
written phases is legal when the second is `failed`, or both rank in the
claim order with the first not after the second. -/
def okPairClaim (p q : String) : Bool :=
  q == "failed" ||
    (match claimRank p, claimRank q with
     | some i, some j => decide (i ≤ j)
     | _, _ => false)

/-- Legal consecutive pair for the code: forward in the order the code
writes, directly to `failed` from anywhere, or the backward step
`data_migration → type_conversion` taken when the per-table loop moves on
to the next table. -/
def okPairCode (p q : String) : Bool :=
  q == "failed" || (p == "data_migration" && q == "type_conversion") ||
    (match phaseRank p, phaseRank q with
     | some i, some j => decide (i ≤ j)
     | _, _ => false)

/-- All consecutive pairs of `p :: l` satisfy `ok`. -/
def chainFrom (ok : String → String → Bool) : String → List String → Bool
  | _, [] => true
  | p, q :: rest => ok p q && chainFrom ok q rest

/-- All consecutive pairs of the trace satisfy `ok`. -/
def chainOK (ok : String → String → Bool) : List String → Bool
  | [] => true
  | p :: rest => chainFrom ok p rest

/-- The trace never writes another phase after `failed`. -/
def failedTerminal (t : List String) : Bool :=
  t.dropLast.all (fun p => !(p == "failed"))

/-- Per-table phase writes, by schema-only flag. -/
def tphases (os : Bool) : List String :=
  "type_conversion" :: (if os then [] else ["data_migration"])

/-! Supporting lemmas about the transfer loop. -/

theorem fetch_data_ne_nil (rows : List ρ) (b offset : Nat) (hb : 0 < b)
    (hoff : offset < rows.length) : (fetch_data rows b offset).isEmpty = false := by
  have hlen : 0 < (fetch_data rows b offset).length := by
    simp only [fetch_data, List.length_take, List.length_drop]
    omega
  cases hp : fetch_data rows b offset with
  | nil => rw [hp] at hlen; simp at hlen
  | cons a l => simp

theorem runBatches_pages_flatten (rows : List ρ) (b : Nat) (hb : 0 < b) :
    ∀ fuel offset rm, rows.length - offset < fuel →
      (runBatches rows b offset rm fuel).pages.flatten = rows.drop offset := by
  intro fuel
  induction fuel with
  | zero => intro offset rm h; omega
  | succ fuel ih =>
    intro offset rm h
    by_cases hoff : offset < rows.length
    · have hpage := fetch_data_ne_nil rows b offset hb hoff
      rw [runBatches]
      simp only [hoff, if_true, hpage, Bool.false_eq_true, if_false, List.flatten_cons]
      rw [ih (offset + b) (rm + (fetch_data rows b offset).length) (by omega)]
      show (rows.drop offset).take b ++ rows.drop (offset + b) = rows.drop offset
      have hdd : rows.drop (offset + b) = (rows.drop offset).drop b := by
        rw [List.drop_drop]
      rw [hdd, List.take_append_drop]
    · rw [runBatches]
      simp only [hoff, if_false, List.flatten_nil]
      have : rows.drop offset = [] := List.drop_eq_nil_of_le (by omega)
      rw [this]

theorem runBatches_offsets_step (rows : List ρ) (b : Nat) :
    ∀ fuel offset rm,
      advancesByBatchSize b (runBatches rows b offset rm fuel).offsets = true := by
  intro fuel
  induction fuel with
  | zero => intro offset rm; rfl
  | succ fuel ih =>
    intro offset rm
    rw [runBatches]
    by_cases hoff : offset < rows.length
    · simp only [hoff, if_true]
      by_cases hpage : (fetch_data rows b offset).isEmpty
      · simp [hpage, advancesByBatchSize]
      · simp only [hpage, Bool.false_eq_true, if_false]
        simp only [advancesByBatchSize, List.all_cons, Bool.and_eq_true, beq_iff_eq]
        exact ⟨by trivial, ih (offset + b) (rm + (fetch_data rows b offset).length)⟩
    · simp [hoff, advancesByBatchSize]

/-! Supporting lemmas about Except and the transformer. -/

theorem except_bind_error {α β : Type} (g : α → Except String β) (e : String) :
    ((Except.error e : Except String α) >>= g) = .error e := rfl

theorem except_bind_ok {α β : Type} (g : α → Except String β) (v : α) :
    ((Except.ok v : Except String α) >>= g) = g v := rfl

theorem except_map_error {α β : Type} (g : α → β) (e : String) :
    (Except.error e : Except String α).map g = .error e := rfl

theorem except_map_ok {α β : Type} (g : α → β) (v : α) :
    (Except.ok v : Except String α).map g = .ok (g v) := rfl

theorem except_pure {α : Type} (v : α) : (pure v : Except String α) = .ok v := rfl

theorem foldlM_colContribution (oCols : List OracleColumn) (row : List (String × Val)) :
    ∀ (pCols : List PgColumn) (acc : List (String × Val)),
      pCols.foldlM
          (fun a pgCol => (colContribution oCols row pgCol).map (fun kv => a ++ kv)) acc
        = (pCols.mapM (colContribution oCols row)).map (fun ls => acc ++ ls.flatten) := by
  intro pCols
  induction pCols with
  | nil =>
    intro acc
    have h0 : (List.mapM (colContribution oCols row) ([] : List PgColumn)) = .ok [] := rfl
    rw [List.foldlM_nil, h0, except_map_ok]
    simp [except_pure]
  | cons pc rest ih =>
    intro acc
    rw [List.foldlM_cons, List.mapM_cons]
    cases h : colContribution oCols row pc with
    | error e =>
      simp [h, except_map_error, except_bind_error]
    | ok kv =>
      simp only [h, except_map_ok, except_bind_ok, ih (acc ++ kv)]
      cases hm : rest.mapM (colContribution oCols row) with
      | error e => simp [hm, except_bind_error, except_map_error]
      | ok ls =>
        simp [hm, except_bind_ok, except_map_ok, except_pure, List.append_assoc]

theorem transformRow_eq (oCols : List OracleColumn) (pCols : List PgColumn)
    (row : List (String × Val)) :
    transformRow oCols pCols row
      = (pCols.mapM (colContribution oCols row)).map List.flatten := by
  rw [transformRow, foldlM_colContribution]
  cases hm : pCols.mapM (colContribution oCols row) with
  | error e => simp [except_map_error]
  | ok ls => simp [except_map_ok]

theorem mapM_ok_mem {α β : Type} (f : α → Except String β) :
    ∀ (l : List α) (out : List β), l.mapM f = .ok out →
      (∀ y ∈ out, ∃ x, x ∈ l ∧ f x = .ok y) ∧
      (∀ x ∈ l, ∃ y, y ∈ out ∧ f x = .ok y) := by
  intro l
  induction l with
  | nil =>
    intro out h
    rw [List.mapM_nil] at h
    cases h
    simp
  | cons a l ih =>
    intro out h
    rw [List.mapM_cons] at h
    cases hf : f a with
    | error e =>
      simp only [hf, except_bind_error] at h
      exact Except.noConfusion h
    | ok y =>
      simp only [hf, except_bind_ok] at h
      cases hm : l.mapM f with
      | error e =>
        simp only [hm, except_bind_error] at h
        exact Except.noConfusion h
      | ok ys =>
        simp only [hm, except_bind_ok, except_pure, Except.ok.injEq] at h
        subst h
        obtain ⟨fwd, bwd⟩ := ih ys hm
        constructor
        · intro z hz
          rcases List.mem_cons.mp hz with hz | hz
          · exact ⟨a, List.mem_cons_self a l, by rw [hf, hz]⟩
          · rcases fwd z hz with ⟨x, hx, hfx⟩
            exact ⟨x, List.mem_cons_of_mem a hx, hfx⟩
        · intro x hx
          rcases List.mem_cons.mp hx with hx | hx
          · exact ⟨y, List.mem_cons_self y ys, by rw [hx, hf]⟩
          · rcases bwd x hx with ⟨z, hz, hfz⟩
            exact ⟨z, List.mem_cons_of_mem y hz, hfz⟩

theorem colContribution_cases (oCols : List OracleColumn) (row : List (String × Val))
    (pgCol : PgColumn) (l : List (String × Val))
    (h : colContribution oCols row pgCol = .ok l) :
    l = [] ∨
    ∃ c v2,
      oCols.find? (fun c0 => lowerString c0.column_name == pgCol.column_name) = some c ∧
      c.column_name ≠ "" ∧
      l = [(pgCol.column_name, v2)] ∧
      (v2 = Val.null ∨
        ∃ v t, lookupRow row c.column_name = some v ∧ v ≠ Val.null ∧
          oracleTypeFor oCols c.column_name = .ok t ∧ convertVal t v = .ok v2) := by
  rw [colContribution] at h
  cases hfind : oCols.find? (fun c => lowerString c.column_name == pgCol.column_name) with
  | none =>
    simp only [hfind, Except.ok.injEq] at h
    exact Or.inl h.symm
  | some c =>
    simp only [hfind] at h
    by_cases hemp : c.column_name = ""
    · simp only [if_pos hemp, Except.ok.injEq] at h
      exact Or.inl h.symm
    · simp only [if_neg hemp] at h
      cases hlook : lookupRow row c.column_name with
      | none =>
        simp only [hlook, Except.ok.injEq] at h
        exact Or.inl h.symm
      | some v =>
        simp only [hlook] at h
        by_cases hnull : v = Val.null
        · simp only [if_pos hnull, Except.ok.injEq] at h
          exact Or.inr ⟨c, Val.null, rfl, hemp, h.symm, Or.inl rfl⟩
        · simp only [if_neg hnull] at h
          cases htype : oracleTypeFor oCols c.column_name with
          | error e =>
            simp only [htype, except_bind_error] at h
            exact Except.noConfusion h
          | ok t =>
            simp only [htype, except_bind_ok] at h
            cases hconv : convertVal t v with
            | error e =>
              simp only [hconv, except_bind_error] at h
              exact Except.noConfusion h
            | ok v2 =>
              simp only [hconv, except_bind_ok, Except.ok.injEq] at h
              exact Or.inr ⟨c, v2, rfl, hemp, h.symm,
                Or.inr ⟨v, t, hlook, hnull, htype, hconv⟩⟩

theorem convertVal_ok_not_lob (t : String) (v v2 : Val)
    (h : convertVal t v = .ok v2)
    (hv : ∀ lc, v = Val.lob lc → t = "CLOB" ∨ t = "BLOB") :
    ∀ lc, v2 ≠ Val.lob lc := by
  intro lc habs
  subst habs
  cases v with
  | null => simp [convertVal] at h
  | str s =>
    by_cases hclob : t = "CLOB"
    · simp [convertVal, hclob] at h
    · by_cases hblob : t = "BLOB"
      · simp [convertVal, hclob, hblob, pyBytes, Except.map] at h
      · simp [convertVal, hclob, hblob] at h
  | bytes b =>
    by_cases hclob : t = "CLOB"
    · simp [convertVal, hclob] at h
    · by_cases hblob : t = "BLOB"
      · simp [convertVal, hclob, hblob, pyBytes, Except.map] at h
      · simp [convertVal, hclob, hblob] at h
  | lob c =>
    rcases hv c rfl with hc | hc
    · subst hc
      simp [convertVal] at h
    · subst hc
      cases c with
      | txt s => simp [convertVal, readLob, pyBytes, Except.map] at h
      | bin b => simp [convertVal, readLob, pyBytes, Except.map] at h

/-! Claim theorems for the transfer loop and the insert call. -/

/-- C1: under a stable unique ordering key and no concurrent writes (the
source table is the fixed ordered list `rows`, `totalRows = rows.length`),
running the batched transfer loop to completion visits every row exactly
once: the concatenation of all fetched pages is exactly the table, so it
contains `totalRows` rows with no duplicates and no omissions. -/
theorem scan_visits_every_row_exactly_once (rows : List ρ) (b : Nat) (hb : 0 < b) :
    (transferTable rows b).pages.flatten = rows ∧
    (transferTable rows b).pages.flatten.length = rows.length := by
  unfold transferTable
  have h := runBatches_pages_flatten rows b hb (rows.length + 1) 0 0 (by omega)
  rw [List.drop_zero] at h
  exact ⟨h, by rw [h]⟩

/-- Witness for C1 at a concrete table of five rows and batch size 2. -/
theorem scan_visits_every_row_exactly_once_witness :
    (transferTable [10, 20, 30, 40, 50] 2).pages.flatten = [10, 20, 30, 40, 50] ∧
    (transferTable [10, 20, 30, 40, 50] 2).pages.flatten.length =
      ([10, 20, 30, 40, 50] : List Nat).length :=
  scan_visits_every_row_exactly_once [10, 20, 30, 40, 50] 2 (by decide)

/-- C2 counterexample: with a three-row table and batch size 2 the second
iteration fetches a short page of 1 row but the offset still advances from
2 to 4 = 2 + batch_size (api.py line 256 is `offset += batch_size`), so the
claim that the offset advances by the number of rows actually fetched is
false on the code. -/
theorem offset_advance_claim_counterexample :
    (transferTable [10, 20, 30] 2).offsets = [(0, 2, 2), (2, 1, 4)] ∧
    advancesByFetchedLen (transferTable [10, 20, 30] 2).offsets = false :=
  ⟨rfl, rfl⟩

/-- C2 amended: in every iteration of the batched transfer loop the offset
is advanced by the configured batch size (`offset += batch_size`), not by
the number of rows actually contained in the fetched page. -/
theorem offset_advances_by_batch_size (rows : List ρ) (b : Nat) :
    advancesByBatchSize b (transferTable rows b).offsets = true :=
  runBatches_offsets_step rows b (rows.length + 1) 0 0

/-- C3: for a table whose up-front row count is zero the loop guard
`offset < row_count` fails immediately, so zero rows are moved and no fetch
call is issued — but, diverging from the claim, no progress snapshot is
published at all: the `percentage ... else 100` branch of api.py line 248
sits inside the loop body and is unreachable for `row_count = 0`. -/
theorem empty_table_transfer_publishes_nothing :
    (transferTable ([] : List Nat) 1000).reports = [] ∧
    (transferTable ([] : List Nat) 1000).fetchCalls = 0 ∧
    (transferTable ([] : List Nat) 1000).rowsMigrated = 0 ∧
    (transferTable ([] : List Nat) 1000).pages = [] :=
  ⟨rfl, rfl, rfl, rfl⟩

/-- C10: `insert_data` on an empty batch returns 0 without executing any
SQL statement, commit or rollback; on a non-empty batch whose execution
succeeds it commits and returns exactly the number of rows in the batch. -/
theorem insert_data_empty_and_count :
    (∀ executeOk : Bool,
        insert_data executeOk ([] : List ρ) =
          ⟨.ok 0, false, false, false⟩) ∧
    (∀ (x : ρ) (xs : List ρ),
        insert_data true (x :: xs) =
          ⟨.ok (x :: xs).length, true, true, false⟩) := by
  constructor
  · intro executeOk; rfl
  · intro x xs; rfl

/-- C6 counterexample: a NUMBER column whose dict has `data_precision` 10
but no `data_scale` key translates to unparameterized `NUMERIC`, not to
`NUMERIC(10)` as the claim requires for "only precision present": the guard
on api.py line 319 demands both keys before any parameter is emitted. -/
theorem number_precision_only_counterexample :
    (convert_oracle_to_postgres_schema
        { table_name := "T", columns := [c6NumberCol], primary_keys := [] }).columns.map
      (fun c => c.data_type) = ["NUMERIC"] ∧
    ("NUMERIC" : String) ≠ "NUMERIC(10)" :=
  ⟨rfl, by decide⟩

/-- C6 amended: a NUMBER column translates to `NUMERIC(p,s)` when both
precision and scale are present with non-null values, to `NUMERIC(p)` when
the precision value is present and the scale key is present but null, and
to unparameterized `NUMERIC` when the scale key is absent (whatever the
precision) or the precision is absent or null. -/
theorem number_translation_cases (col : OracleColumn) (p s : Nat)
    (ht : col.data_type = "NUMBER") :
    (col.data_precision = some (some p) → col.data_scale = some (some s) →
        convertColumnType col = "NUMERIC(" ++ toString p ++ "," ++ toString s ++ ")") ∧
    (col.data_precision = some (some p) → col.data_scale = some none →
        convertColumnType col = "NUMERIC(" ++ toString p ++ ")") ∧
    (col.data_scale = none → convertColumnType col = "NUMERIC") ∧
    ((col.data_precision = none ∨ col.data_precision = some none) →
        convertColumnType col = "NUMERIC") := by
  refine ⟨?_, ?_, ?_, ?_⟩
  · intro hp hs
    simp [convertColumnType, ht, hp, hs]
  · intro hp hs
    simp [convertColumnType, ht, hp, hs]
  · intro hs
    simp [convertColumnType, ht, hs, typeMappingGet]
  · intro hp
    rcases hp with hp | hp
    · simp [convertColumnType, ht, hp, typeMappingGet]
    · rcases hsc : col.data_scale with _ | sc
      · simp [convertColumnType, ht, hp, hsc, typeMappingGet]
      · rcases sc with _ | s2
        · simp [convertColumnType, ht, hp, hsc, typeMappingGet]
        · simp [convertColumnType, ht, hp, hsc, typeMappingGet]

/-- Witness for the amended C6 statement at the both-present column. -/
theorem number_translation_cases_witness :
    c6BothCol.data_type = "NUMBER" ∧
    convertColumnType c6BothCol = "NUMERIC(" ++ toString 10 ++ "," ++ toString 2 ++ ")" :=
  ⟨rfl, (number_translation_cases c6BothCol 10 2 rfl).1 rfl rfl⟩

/-- C7 counterexample: the primary key `LEGACY_KEY` of `c7Schema` names no
column, yet the translation returns a schema carrying the lower-cased key
`legacy_key` — no subset check runs and no SchemaError exists anywhere in
the code (the function is total). -/
theorem pk_not_in_columns_counterexample :
    (convert_oracle_to_postgres_schema c7Schema).primary_keys = ["legacy_key"] ∧
    (convert_oracle_to_postgres_schema c7Schema).columns.map
      (fun c => c.column_name) = ["id"] ∧
    ("legacy_key" : String) ∉ (["id"] : List String) :=
  ⟨rfl, rfl, by decide⟩

/-- C7 amended: schema translation lower-cases primary-key names exactly
the way it lower-cases column names, but performs no subset check: it
always returns a schema, carrying every lower-cased primary-key name
through whether or not it is among the translated column names. -/
theorem pk_lowercased_and_schema_always_returned (s : OracleSchema) :
    (convert_oracle_to_postgres_schema s).primary_keys =
      s.primary_keys.map lowerString ∧
    (convert_oracle_to_postgres_schema s).columns.map (fun c => c.column_name) =
      s.columns.map (fun c => lowerString c.column_name) := by
  constructor
  · rfl
  · rw [convert_oracle_to_postgres_schema, List.map_map]
    rfl

/-- C9: the data transformer builds each output row by matching target
columns to source columns on case-normalized name.  Whenever a row
transforms successfully: every emitted key belongs to a matched target
column (so an unmatched target column is omitted); provided handles occur
only in CLOB or BLOB typed source columns, no output value is an undrained
handle; a matched null passes through unchanged; a matched CLOB handle is
drained into materialized character data and a matched BLOB handle into a
materialized byte sequence. -/
theorem transform_matches_and_materializes
    (oCols : List OracleColumn) (pCols : List PgColumn)
    (row out : List (String × Val))
    (h : transformRow oCols pCols row = .ok out)
    (hlob : ∀ c ∈ oCols, ∀ lc, lookupRow row c.column_name = some (Val.lob lc) →
      c.data_type = "CLOB" ∨ c.data_type = "BLOB") :
    (∀ kv ∈ out, ∃ pgCol, pgCol ∈ pCols ∧ kv.1 = pgCol.column_name ∧
        (oCols.find? (fun c => lowerString c.column_name == pgCol.column_name)).isSome
          = true) ∧
    (∀ kv ∈ out, ∀ lc, kv.2 ≠ Val.lob lc) ∧
    (∀ pgCol ∈ pCols, ∀ c,
        oCols.find? (fun c0 => lowerString c0.column_name == pgCol.column_name) = some c →
        c.column_name ≠ "" →
        (lookupRow row c.column_name = some Val.null →
            (pgCol.column_name, Val.null) ∈ out) ∧
        (∀ s2, lookupRow row c.column_name = some (Val.lob (.txt s2)) →
            oracleTypeFor oCols c.column_name = .ok "CLOB" →
            (pgCol.column_name, Val.str s2) ∈ out) ∧
        (∀ bs, lookupRow row c.column_name = some (Val.lob (.bin bs)) →
            oracleTypeFor oCols c.column_name = .ok "BLOB" →
            (pgCol.column_name, Val.bytes bs) ∈ out)) := by
  rw [transformRow_eq] at h
  cases hm : pCols.mapM (colContribution oCols row) with
  | error e =>
    rw [hm, except_map_error] at h
    exact Except.noConfusion h
  | ok ls =>
    rw [hm, except_map_ok] at h
    injection h with hout
    obtain ⟨fwd, bwd⟩ := mapM_ok_mem (colContribution oCols row) pCols ls hm
    subst hout
    refine ⟨?_, ?_, ?_⟩
    · intro kv hkv
      rcases List.mem_flatten.mp hkv with ⟨l, hl, hkvl⟩
      rcases fwd l hl with ⟨pgCol, hpg, hcol⟩
      rcases colContribution_cases oCols row pgCol l hcol with
        hnil | ⟨c, v2, hfind, hemp, hl2, hv2⟩
      · rw [hnil] at hkvl
        exact absurd hkvl (List.not_mem_nil kv)
      · rw [hl2] at hkvl
        have hkveq := List.mem_singleton.mp hkvl
        exact ⟨pgCol, hpg, by rw [hkveq], by rw [hfind]; rfl⟩
    · intro kv hkv lc
      rcases List.mem_flatten.mp hkv with ⟨l, hl, hkvl⟩
      rcases fwd l hl with ⟨pgCol, hpg, hcol⟩
      rcases colContribution_cases oCols row pgCol l hcol with
        hnil | ⟨c, v2, hfind, hemp, hl2, hv2⟩
      · rw [hnil] at hkvl
        exact absurd hkvl (List.not_mem_nil kv)
      · rw [hl2] at hkvl
        have hkveq := List.mem_singleton.mp hkvl
        rw [hkveq]
        rcases hv2 with rfl | ⟨v, t, hlk, hvn, htype, hconv⟩
        · simp
        · apply convertVal_ok_not_lob t v v2 hconv
          intro lc0 hveq
          rw [oracleTypeFor] at htype
          cases hfind2 : oCols.find? (fun c2 => c2.column_name == c.column_name) with
          | none =>
            simp only [hfind2] at htype
            exact Except.noConfusion htype
          | some c2 =>
            simp only [hfind2] at htype
            injection htype with ht
            have hc2mem := List.mem_of_find?_eq_some hfind2
            have hc2p := List.find?_some hfind2
            have hc2name : c2.column_name = c.column_name := eq_of_beq hc2p
            have hty := hlob c2 hc2mem lc0 (by rw [hc2name, hlk, hveq])
            rw [← ht]
            exact hty
    · intro pgCol hpg c hfind hemp
      rcases bwd pgCol hpg with ⟨l, hl, hcol⟩
      refine ⟨?_, ?_, ?_⟩
      · intro hlk
        have hc : colContribution oCols row pgCol
            = .ok [(pgCol.column_name, Val.null)] := by
          rw [colContribution]
          simp [hfind, hemp, hlk]
        have hleq : l = [(pgCol.column_name, Val.null)] := by
          rw [hcol] at hc
          injection hc with h2
        exact List.mem_flatten.mpr
          ⟨l, hl, by rw [hleq]; exact List.mem_singleton.mpr rfl⟩
      · intro s2 hlk htype
        have hc : colContribution oCols row pgCol
            = .ok [(pgCol.column_name, Val.str s2)] := by
          rw [colContribution]
          simp [hfind, hemp, hlk, htype, except_bind_ok, convertVal, readLob, pyStr]
        have hleq : l = [(pgCol.column_name, Val.str s2)] := by
          rw [hcol] at hc
          injection hc with h2
        exact List.mem_flatten.mpr
          ⟨l, hl, by rw [hleq]; exact List.mem_singleton.mpr rfl⟩
      · intro bs hlk htype
        have hc : colContribution oCols row pgCol
            = .ok [(pgCol.column_name, Val.bytes bs)] := by
          rw [colContribution]
          simp [hfind, hemp, hlk, htype, except_bind_ok, convertVal, readLob,
            pyBytes, Except.map]
        have hleq : l = [(pgCol.column_name, Val.bytes bs)] := by
          rw [hcol] at hc
          injection hc with h2
        exact List.mem_flatten.mpr
          ⟨l, hl, by rw [hleq]; exact List.mem_singleton.mpr rfl⟩

/-! Supporting lemmas about the orchestrator model. -/

theorem cleanup_not_connected (st : RunState) :
    (cleanup st).oracle ≠ some true ∧ (cleanup st).pg ≠ some true := by
  constructor
  · cases h : st.oracle <;> simp [cleanup, h]
  · cases h : st.pg <;> simp [cleanup, h]

theorem runSteps_fault_fires (script : List Step) :
    ∀ (k : Nat) (m : String) (st : RunState),
      k < (script.filter Step.fallible).length →
      ∃ st2, runSteps script (some (k, m)) st = (some m, st2) := by
  induction script with
  | nil =>
    intro k m st h
    simp [List.filter_nil] at h
  | cons s rest ih =>
    intro k m st h
    by_cases hf : s.fallible
    · cases k with
      | zero => exact ⟨st, by simp [runSteps, hf]⟩
      | succ k =>
        have h2 : k < (rest.filter Step.fallible).length := by
          rw [List.filter_cons, if_pos hf] at h
          simpa using h
        rcases ih k m (s.apply st) h2 with ⟨st2, hst⟩
        exact ⟨st2, by simp [runSteps, hf, hst]⟩
    · have h2 : k < (rest.filter Step.fallible).length := by
        rw [List.filter_cons, if_neg hf] at h
        exact h
      rcases ih k m (s.apply st) h2 with ⟨st2, hst⟩
      exact ⟨st2, by simp [runSteps, hf, hst]⟩

theorem phasesOf_cons (s : Step) (l : List Step) :
    phasesOf (s :: l) = phasesOf [s] ++ phasesOf l := by
  cases s <;> simp [phasesOf]

theorem phasesOf_append (l1 l2 : List Step) :
    phasesOf (l1 ++ l2) = phasesOf l1 ++ phasesOf l2 := by
  simp [phasesOf, List.filterMap_append]

theorem step_apply_phases (s : Step) (st : RunState) :
    (s.apply st).phases = st.phases ++ phasesOf [s] := by
  cases s <;> simp [Step.apply, phasesOf]

theorem phasesOf_take_cons (s : Step) (rest : List Step) (n : Nat) :
    phasesOf ((s :: rest).take (n + 1)) = phasesOf [s] ++ phasesOf (rest.take n) := by
  rw [List.take_succ_cons, phasesOf_cons]

theorem runSteps_phases_take (script : List Step) :
    ∀ (fault : Option (Nat × String)) (st : RunState),
      ∃ n, (runSteps script fault st).2.phases
        = st.phases ++ phasesOf (script.take n) := by
  induction script with
  | nil =>
    intro fault st
    exact ⟨0, by simp [runSteps, phasesOf]⟩
  | cons s rest ih =>
    intro fault st
    by_cases hf : s.fallible
    · rcases fault with _ | ⟨k, m⟩
      · rcases ih none (s.apply st) with ⟨n, hn⟩
        refine ⟨n + 1, ?_⟩
        rw [show runSteps (s :: rest) none st = runSteps rest none (s.apply st) from by
          simp [runSteps, hf]]
        rw [hn, step_apply_phases, phasesOf_take_cons, List.append_assoc]
      · cases k with
        | zero =>
          refine ⟨0, ?_⟩
          rw [show runSteps (s :: rest) (some (0, m)) st = (some m, st) from by
            simp [runSteps, hf]]
          simp [phasesOf]
        | succ k =>
          rcases ih (some (k, m)) (s.apply st) with ⟨n, hn⟩
          refine ⟨n + 1, ?_⟩
          rw [show runSteps (s :: rest) (some (k + 1, m)) st
              = runSteps rest (some (k, m)) (s.apply st) from by simp [runSteps, hf]]
          rw [hn, step_apply_phases, phasesOf_take_cons, List.append_assoc]
    · rcases ih fault (s.apply st) with ⟨n, hn⟩
      refine ⟨n + 1, ?_⟩
      rw [show runSteps (s :: rest) fault st = runSteps rest fault (s.apply st) from by
        simp [runSteps, hf]]
      rw [hn, step_apply_phases, phasesOf_take_cons, List.append_assoc]

theorem chainFrom_of_append (ok : String → String → Bool) :
    ∀ (xs : List String) (p : String) (ys : List String),
      chainFrom ok p (xs ++ ys) = true → chainFrom ok p xs = true := by
  intro xs
  induction xs with
  | nil => intro p ys h; rfl
  | cons q rest ih =>
    intro p ys h
    simp only [List.cons_append, chainFrom, Bool.and_eq_true] at h
    simp only [chainFrom, Bool.and_eq_true]
    exact ⟨h.1, ih q ys h.2⟩

theorem chainFrom_concat_failed :
    ∀ (xs : List String) (p : String),
      chainFrom okPairCode p xs = true →
      chainFrom okPairCode p (xs ++ ["failed"]) = true := by
  intro xs
  induction xs with
  | nil =>
    intro p h
    simp [chainFrom, okPairCode]
  | cons q rest ih =>
    intro p h
    simp only [List.cons_append, chainFrom, Bool.and_eq_true] at h ⊢
    exact ⟨h.1, ih q h.2⟩

theorem phasesOf_batchSteps (n b : Nat) :
    ∀ (fuel off : Nat), phasesOf (batchSteps n b off fuel) = [] := by
  intro fuel
  induction fuel with
  | zero => intro off; rfl
  | succ fuel ih =>
    intro off
    rw [batchSteps]
    by_cases h : off < n
    · rw [if_pos h]
      by_cases hb : b = 0
      · rw [if_pos hb]; rfl
      · rw [if_neg hb]
        simp only [phasesOf, List.filterMap_cons] at ih ⊢
        exact ih (off + b)
    · rw [if_neg h]; rfl

theorem phasesOf_tableSteps (b : Nat) (os : Bool) (n : Nat) :
    phasesOf (tableSteps b os n) = tphases os := by
  cases os with
  | true => rfl
  | false =>
    show phasesOf ([Step.oracleCall, Step.setPhase "type_conversion", Step.postgresCall]
      ++ ([Step.setPhase "data_migration", Step.oracleCall] ++ batchSteps n b 0 (n + 1)))
        = tphases false
    rw [phasesOf_append, phasesOf_append, phasesOf_batchSteps]
    rfl

theorem phasesOf_tablesPart (b : Nat) (os : Bool) :
    ∀ (tables : List Nat),
      phasesOf ((tables.map (tableSteps b os)).flatten)
        = (tables.map (fun _ => tphases os)).flatten := by
  intro tables
  induction tables with
  | nil => rfl
  | cons t ts ih =>
    simp only [List.map_cons, List.flatten_cons]
    rw [phasesOf_append, phasesOf_tableSteps, ih]

theorem phasesOf_jobSteps (b : Nat) (os tg : Bool) (tables : List Nat) :
    phasesOf (jobSteps b os tg tables)
      = (tables.map (fun _ => tphases os)).flatten
        ++ ["plsql_conversion", "validation", "completed"] := by
  rw [jobSteps]
  rw [phasesOf_append, phasesOf_append, phasesOf_append, phasesOf_tablesPart]
  have h1 : phasesOf [Step.importMods, Step.mkOracle, Step.connOracle,
      Step.mkPostgres, Step.connPostgres] = [] := rfl
  have h2 : phasesOf (if tg then [] else [Step.oracleCall]) = [] := by
    cases tg <;> rfl
  have h3 : phasesOf [Step.setPhase "plsql_conversion", Step.setPhase "validation",
      Step.setStatus "completed", Step.setPhase "completed"]
        = ["plsql_conversion", "validation", "completed"] := rfl
  rw [h1, h2, h3]
  rfl

theorem chainFrom_tables (os : Bool) :
    ∀ (tables : List Nat) (p : String),
      okPairCode p "type_conversion" = true →
      okPairCode p "plsql_conversion" = true →
      chainFrom okPairCode p
        ((tables.map (fun _ => tphases os)).flatten
          ++ ["plsql_conversion", "validation", "completed"]) = true := by
  intro tables
  induction tables with
  | nil =>
    intro p h1 h2
    simp only [List.map_nil, List.flatten_nil, List.nil_append, chainFrom,
      Bool.and_eq_true]
    exact ⟨h2, by decide⟩
  | cons t ts ih =>
    intro p h1 h2
    cases os with
    | true =>
      have hexp : (((t :: ts).map (fun _ => tphases true)).flatten
            ++ ["plsql_conversion", "validation", "completed"])
          = "type_conversion" :: ((ts.map (fun _ => tphases true)).flatten
              ++ ["plsql_conversion", "validation", "completed"]) := by
        simp [tphases]
      rw [hexp]
      simp only [chainFrom, Bool.and_eq_true]
      exact ⟨h1, ih "type_conversion" (by decide) (by decide)⟩
    | false =>
      have hexp : (((t :: ts).map (fun _ => tphases false)).flatten
            ++ ["plsql_conversion", "validation", "completed"])
          = "type_conversion" :: "data_migration"
              :: ((ts.map (fun _ => tphases false)).flatten
                ++ ["plsql_conversion", "validation", "completed"]) := by
        simp [tphases]
      rw [hexp]
      simp only [chainFrom, Bool.and_eq_true]
      exact ⟨h1, by decide, ih "data_migration" (by decide) (by decide)⟩

theorem chain_full (b : Nat) (os tg : Bool) (tables : List Nat) :
    chainOK okPairCode ("schema_analysis" :: phasesOf (jobSteps b os tg tables))
      = true := by
  rw [phasesOf_jobSteps]
  show chainFrom okPairCode "schema_analysis" _ = true
  exact chainFrom_tables os tables "schema_analysis" (by decide) (by decide)

theorem failed_not_written (b : Nat) (os tg : Bool) (tables : List Nat) :
    "failed" ∉ phasesOf (jobSteps b os tg tables) := by
  rw [phasesOf_jobSteps]
  intro h
  rcases List.mem_append.mp h with h | h
  · rcases List.mem_flatten.mp h with ⟨l, hl, hml⟩
    rcases List.mem_map.mp hl with ⟨t, _, rfl⟩
    cases os <;> simp [tphases] at hml
  · simp at h

theorem phasesOf_take_append (script : List Step) (n : Nat) :
    phasesOf script = phasesOf (script.take n) ++ phasesOf (script.drop n) := by
  rw [← phasesOf_append, List.take_append_drop]

theorem all_not_failed_of (X : List String) (hX : "failed" ∉ X) :
    ("schema_analysis" :: X).all (fun p => !(p == "failed")) = true := by
  rw [List.all_eq_true]
  intro x hx
  rcases List.mem_cons.mp hx with rfl | hx3
  · rfl
  · have hne : x ≠ "failed" := fun he => hX (he ▸ hx3)
    have hb : (x == "failed") = false := beq_eq_false_iff_ne.mpr hne
    rw [hb]
    rfl

theorem failedTerminal_of_all (l : List String)
    (h : l.all (fun p => !(p == "failed")) = true) : failedTerminal l = true := by
  rw [failedTerminal, List.all_eq_true]
  intro x hx
  exact (List.all_eq_true.mp h) x (List.mem_of_mem_dropLast hx)

/-! Claim theorems for the orchestrator. -/

/-- C4: whenever a fault fires at any fallible call of the run (`k` indexes
the failing call, `m` is its message), the job status becomes `failed`,
the message is recorded as the job error and `failed` is the last phase
written; moreover, on every exit path — faulted anywhere or fault-free —
neither connector is left connected when the run returns. -/
theorem run_fails_with_message_and_cleans_up
    (b : Nat) (onlySchema tablesGiven : Bool) (tables : List Nat)
    (fault : Option (Nat × String)) (k : Nat) (m : String)
    (hk : k < ((jobSteps b onlySchema tablesGiven tables).filter Step.fallible).length) :
    (runJob b onlySchema tablesGiven tables fault).oracle ≠ some true ∧
    (runJob b onlySchema tablesGiven tables fault).pg ≠ some true ∧
    (runJob b onlySchema tablesGiven tables (some (k, m))).status = "failed" ∧
    (runJob b onlySchema tablesGiven tables (some (k, m))).error = some m ∧
    (runJob b onlySchema tablesGiven tables (some (k, m))).phases.getLast?
      = some "failed" := by
  have hclean : (runJob b onlySchema tablesGiven tables fault).oracle ≠ some true ∧
      (runJob b onlySchema tablesGiven tables fault).pg ≠ some true := by
    rw [runJob]
    rcases hr : runSteps (jobSteps b onlySchema tablesGiven tables) fault initState with
      ⟨res, st⟩
    cases res with
    | none => exact cleanup_not_connected st
    | some m2 => exact cleanup_not_connected _
  rcases runSteps_fault_fires (jobSteps b onlySchema tablesGiven tables) k m initState hk
    with ⟨st2, hst⟩
  refine ⟨hclean.1, hclean.2, ?_, ?_, ?_⟩
  · rw [runJob, hst]
    rfl
  · rw [runJob, hst]
    rfl
  · rw [runJob, hst]
    show (st2.phases ++ ["failed"]).getLast? = some "failed"
    exact List.getLast?_concat _

/-- Witness for C4: a one-table job with the fault injected at the very
first fallible call (the import). -/
theorem run_fails_with_message_and_cleans_up_witness :
    (runJob 1000 false true [1] (some (0, "boom"))).oracle ≠ some true ∧
    (runJob 1000 false true [1] (some (0, "boom"))).pg ≠ some true ∧
    (runJob 1000 false true [1] (some (0, "boom"))).status = "failed" ∧
    (runJob 1000 false true [1] (some (0, "boom"))).error = some "boom" ∧
    (runJob 1000 false true [1] (some (0, "boom"))).phases.getLast? = some "failed" :=
  run_fails_with_message_and_cleans_up 1000 false true [1]
    (some (0, "boom")) 0 "boom" (by decide)

/-- C5 counterexample: a fault-free two-table run (both tables empty, batch
size 1000, include-list given, data migration on) writes `type_conversion`
again after `data_migration` when it moves to the second table — and the
procedure phase is written as `plsql_conversion`, which the claimed order
does not even contain — so the claimed forward-only phase sequence is
violated. -/
theorem phase_monotonicity_counterexample :
    (runJob 1000 false true [0, 0] none).phases
      = ["schema_analysis", "type_conversion", "data_migration",
         "type_conversion", "data_migration", "plsql_conversion",
         "validation", "completed"] ∧
    chainOK okPairClaim (runJob 1000 false true [0, 0] none).phases = false := by
  constructor
  · rfl
  · rfl

/-- C5 amended: across every run of a job (any batch size, schema-only
flag, include-list mode, table list and fault), the written phase sequence
follows the code order `schema_analysis, type_conversion, data_migration,
plsql_conversion, validation, completed`, moving forward except that the
per-table loop steps back from `data_migration` to `type_conversion` when
it starts the next table; any phase may step directly to `failed`, and
once `failed` is written no further phase is ever written. -/
theorem phase_trace_shape (b : Nat) (onlySchema tablesGiven : Bool)
    (tables : List Nat) (fault : Option (Nat × String)) :
    chainOK okPairCode (runJob b onlySchema tablesGiven tables fault).phases = true ∧
    failedTerminal (runJob b onlySchema tablesGiven tables fault).phases = true := by
  rcases hr : runSteps (jobSteps b onlySchema tablesGiven tables) fault initState with
    ⟨res, st⟩
  rcases runSteps_phases_take (jobSteps b onlySchema tablesGiven tables) fault initState
    with ⟨n, hn⟩
  rw [hr] at hn
  have hst : st.phases
      = "schema_analysis" :: phasesOf ((jobSteps b onlySchema tablesGiven tables).take n) :=
    hn
  have hchain : chainFrom okPairCode "schema_analysis"
      (phasesOf ((jobSteps b onlySchema tablesGiven tables).take n)) = true := by
    have hfull : chainFrom okPairCode "schema_analysis"
        (phasesOf (jobSteps b onlySchema tablesGiven tables)) = true :=
      chain_full b onlySchema tablesGiven tables
    rw [phasesOf_take_append _ n] at hfull
    exact chainFrom_of_append _ _ _ _ hfull
  have hnofail : "failed" ∉ phasesOf ((jobSteps b onlySchema tablesGiven tables).take n) := by
    intro hmem
    apply failed_not_written b onlySchema tablesGiven tables
    rw [phasesOf_take_append _ n]
    exact List.mem_append_left _ hmem
  cases res with
  | none =>
    rw [runJob, hr]
    show chainOK okPairCode st.phases = true ∧ failedTerminal st.phases = true
    rw [hst]
    constructor
    · exact hchain
    · exact failedTerminal_of_all _ (all_not_failed_of _ hnofail)
  | some m =>
    rw [runJob, hr]
    show chainOK okPairCode (st.phases ++ ["failed"]) = true ∧
      failedTerminal (st.phases ++ ["failed"]) = true
    rw [hst]
    constructor
    · exact chainFrom_concat_failed _ "schema_analysis" hchain
    · rw [failedTerminal, List.dropLast_concat]
      exact all_not_failed_of _ hnofail

/-- Witness for C9 at the concrete row `c9Row`: the CLOB handle is drained
to its text, the BLOB handle to its bytes, and the null passes through. -/
theorem transform_matches_and_materializes_witness :
    ("doc", Val.str "hello") ∈ c9Out ∧
    ("img", Val.bytes [7, 8]) ∈ c9Out ∧
    ("note", Val.null) ∈ c9Out := by
  have h : transformRow c9OracleCols c9PgCols c9Row = .ok c9Out := by rfl
  have hlob : ∀ c ∈ c9OracleCols, ∀ lc,
      lookupRow c9Row c.column_name = some (Val.lob lc) →
      c.data_type = "CLOB" ∨ c.data_type = "BLOB" := by
    intro c hc lc hl
    simp only [c9OracleCols, List.mem_cons, List.not_mem_nil, or_false] at hc
    rcases hc with rfl | rfl | rfl
    · exact Or.inl rfl
    · exact Or.inr rfl
    · have hval : lookupRow c9Row "NOTE" = some Val.null := rfl
      rw [hval] at hl
      injection hl with h2
      exact Val.noConfusion h2
  have main := transform_matches_and_materializes c9OracleCols c9PgCols c9Row c9Out h hlob
  have h3 := main.2.2
  refine ⟨?_, ?_, ?_⟩
  · have step := h3 { column_name := "doc", data_type := "TEXT", nullable := true, column_default := none }
      (by decide) { column_name := "DOC", data_type := "CLOB" } rfl (by decide)
    exact step.2.1 "hello" rfl rfl
  · have step := h3 { column_name := "img", data_type := "BYTEA", nullable := true, column_default := none }
      (by decide) { column_name := "IMG", data_type := "BLOB" } rfl (by decide)
    exact step.2.2 [7, 8] rfl rfl
  · have step := h3 { column_name := "note", data_type := "VARCHAR", nullable := true, column_default := none }
      (by decide) { column_name := "NOTE", data_type := "VARCHAR2" } rfl (by decide)
    exact step.1 rfl

end DbMigrations
